import Mathlib

/-!
Verification of the versioned-object core of the AeonG property-graph
storage engine, centred on `storage/v2/edge_accessor.cpp`.  The data model
(`Edge`, `Delta`, `Transaction`) and the accessor operations are embedded
as executable Lean functions; machine integers become `Nat` (none of the
operations here can overflow 64-bit ranges, so no modular wrap is modelled),
fallible operations return `Except Error`.  Parts of the repository that
`edge_accessor.cpp` uses but that are outside the sources at hand
(`mvcc.hpp`, `edge.hpp`) are modelled from the design document and marked
`Modelled from the spec:` in their doc comments.
-/

set_option autoImplicit false

namespace AeonG

/-- A `PropertyValue`: `none` models the null value (`PropertyValue()`),
`some v` a concrete (integer-abstracted) value. -/
abbrev PropertyValue := Option Nat

/-- The property store of one object, as returned by
`PropertyStore::Properties()`: an association list keyed by property id,
holding only non-null values, keys kept in `std::map` sorted order. -/
abbrev PropMap := List (Nat × Nat)

/-- `PropertyStore::GetProperty`: the stored value, or null when absent. -/
def getProp (m : PropMap) (k : Nat) : PropertyValue := m.lookup k

/-- Removal of every entry with key `k` (`std::map::erase` on a no-dup map). -/
def eraseProp (m : PropMap) (k : Nat) : PropMap := m.filter (fun kv => kv.1 != k)

/-- In-place update of the entry with key `k` (`it->second = value`). -/
def updateProp (m : PropMap) (k v : Nat) : PropMap :=
  m.map (fun kv => if kv.1 = k then (k, v) else kv)

/-- Sorted insertion of a fresh key (`std::map::emplace`). -/
def insertSorted (k v : Nat) : PropMap → PropMap
  | [] => [(k, v)]
  | kv :: rest =>
    if k < kv.1 then (k, v) :: kv :: rest
    else if k = kv.1 then (k, v) :: rest
    else kv :: insertSorted k v rest

/-- Modelled from the spec: `PropertyStore::SetProperty` (the property
store is outside the sources at hand; the spec gives it a map-like
get/set/clear contract).  A null value removes the key; a non-null value
updates in place or inserts. -/
def setProp (m : PropMap) (k : Nat) (v : PropertyValue) : PropMap :=
  match v with
  | none => eraseProp m k
  | some vv => if (m.lookup k).isSome then updateProp m k vv else insertSorted k vv m

/-- Modelled from the spec: the sentinel threshold separating real commit
timestamps (below) from reserved transaction ids (at or above). -/
def kTransactionInitialId : Nat := 2 ^ 63

/-- `Delta::Action` (from the design document's Delta data model). -/
inductive Action where
  | ADD_LABEL (label : Nat)
  | REMOVE_LABEL (label : Nat)
  | SET_PROPERTY (key : Nat) (value : PropertyValue)
  | ADD_IN_EDGE (gid : Nat)
  | ADD_OUT_EDGE (gid : Nat)
  | REMOVE_IN_EDGE (gid : Nat)
  | REMOVE_OUT_EDGE (gid : Nat)
  | RECREATE_OBJECT
  | DELETE_OBJECT
deriving DecidableEq

/-- A `Delta`: one undo-log record.  `timestamp` is the current value of
the shared timestamp cell as observed through this Delta (transaction id
while uncommitted, commit timestamp afterwards); `from_gid`, `to_gid` and
`transaction_st` are the extra edge fields assigned in
`edge_accessor.cpp`.  The chain itself is a `List Delta`, newest first. -/
structure Delta where
  action : Action
  timestamp : Nat
  from_gid : Nat
  to_gid : Nat
  transaction_st : Nat
deriving DecidableEq

/-- The `Edge` core record (fields as used by `edge_accessor.cpp`):
gid, endpoint gids, deleted flag, property store, delta chain head,
write-count `num`, and the version-start timestamp `transaction_st`. -/
structure Edge where
  gid : Nat
  from_gid : Nat
  to_gid : Nat
  deleted : Bool
  properties : PropMap
  delta : List Delta
  num : Nat
  transaction_st : Nat
deriving DecidableEq

/-- One change-notification record (`prinfEdge(...)` in the source):
edge type, gid, endpoint gids, effective timestamp, property snapshot. -/
structure PrinfEdge where
  edge_type : Nat
  gid : Nat
  from_gid : Nat
  to_gid : Nat
  ts : Nat
  properties : PropMap
deriving DecidableEq

/-- The transaction-local anchor archive: (gid, timestamp) keyed map of
full property snapshots, with `std::map` assignment semantics. -/
abbrev Archive := List ((Nat × Nat) × PropMap)

/-- `archive[key] = m`: overwrite the existing entry or append a new one. -/
def archiveInsert (ar : Archive) (key : Nat × Nat) (m : PropMap) : Archive :=
  if ar.any (fun kv => kv.1 = key) then
    ar.map (fun kv => if kv.1 = key then (key, m) else kv)
  else ar ++ [(key, m)]

/-- The fields of `Transaction` consumed by `edge_accessor.cpp`:
transaction id (from the reserved id space), start timestamp, the anchor
archive `gid_anchor_edge_` and the notification buffer `prinfEdge_`. -/
structure Transaction where
  transaction_id : Nat
  start_timestamp : Nat
  gid_anchor_edge : Archive
  prinfEdge : List PrinfEdge
deriving DecidableEq

/-- `Config::Items` as consumed here: the `properties_on_edges` switch and
the anchor threshold `AnchorNum`. -/
structure ConfigItems where
  properties_on_edges : Bool
  AnchorNum : Nat
deriving DecidableEq

/-- The two read views. -/
inductive View where
  | OLD
  | NEW
deriving DecidableEq

/-- The logical error kinds surfaced to callers. -/
inductive Error where
  | PROPERTIES_DISABLED
  | SERIALIZATION_ERROR
  | DELETED_OBJECT
  | NONEXISTENT_OBJECT
deriving DecidableEq

/-- The `EdgeAccessor`: one edge bound to one transaction, plus the
opaque schema collaborators and the include-deleted flag.  Vertices are
abstracted to their identity (a `Nat`), as the claims only compare which
vertex pointer is handed on. -/
structure EdgeAccessor where
  edge : Edge
  from_vertex : Nat
  to_vertex : Nat
  edge_type : Nat
  txn : Transaction
  indices : Nat
  constraints : Nat
  config : ConfigItems
  for_deleted : Bool
deriving DecidableEq

/-- The `VertexAccessor` constructor surface from `vertex_accessor.hpp`:
vertex pointer, transaction, indices, constraints, config, and the
`for_deleted` flag whose default argument is `false`. -/
structure VertexAccessor where
  vertex : Nat
  transaction : Transaction
  indices : Nat
  constraints : Nat
  config : ConfigItems
  for_deleted : Bool := false
deriving DecidableEq

/-- `EdgeAccessor::FromVertex`: builds a vertex accessor for the from
endpoint, reusing transaction/indices/constraints/config and leaving the
`for_deleted` constructor argument at its default. -/
def EdgeAccessor.FromVertex (a : EdgeAccessor) : VertexAccessor :=
  { vertex := a.from_vertex, transaction := a.txn, indices := a.indices,
    constraints := a.constraints, config := a.config }

/-- `EdgeAccessor::ToVertex`: the same for the to endpoint. -/
def EdgeAccessor.ToVertex (a : EdgeAccessor) : VertexAccessor :=
  { vertex := a.to_vertex, transaction := a.txn, indices := a.indices,
    constraints := a.constraints, config := a.config }

/-- Modelled from the spec: the Write Validator `PrepareForWrite`
(`mvcc.hpp` is outside the sources at hand).  No head Delta: permitted.
Uncommitted head: permitted exactly when it is owned by the requesting
transaction.  Committed head: permitted. -/
def PrepareForWrite (txn : Transaction) (e : Edge) : Bool :=
  match e.delta with
  | [] => true
  | d :: _ =>
    if kTransactionInitialId ≤ d.timestamp then d.timestamp == txn.transaction_id
    else true

/-- Modelled from the spec: whether the Visibility Resolver undoes a delta
whose timestamp cell reads `ts`, for the given viewer and view.  `OLD`
undoes everything not committed before the viewer's start (all uncommitted
deltas, the viewer's own included, and commits at or after the start);
`NEW` undoes nothing, yielding the live state. -/
def undoApplies (txn : Transaction) (view : View) (ts : Nat) : Bool :=
  match view with
  | .OLD => kTransactionInitialId ≤ ts || txn.start_timestamp ≤ ts
  | .NEW => false

/-- The newest-first prefix of the chain whose deltas the Resolver undoes:
the walk stops at the first delta already inside the view's horizon. -/
def applicableDeltas (txn : Transaction) (view : View) (chain : List Delta) : List Delta :=
  chain.takeWhile (fun d => undoApplies txn view d.timestamp)

/-- Modelled from the spec: `ApplyDeltasForRead` (`mvcc.hpp` is outside
the sources at hand).  Walks the chain newest-first, handing each delta
that must be undone to the caller's visitor, and stops at the horizon. -/
def ApplyDeltasForRead {σ : Type} (txn : Transaction) (chain : List Delta) (view : View)
    (f : σ → Delta → σ) (init : σ) : σ :=
  (applicableDeltas txn view chain).foldl f init

/-- The visitor of `EdgeAccessor::IsVisible` (source lines 33-52), on the
state (deleted, exists). -/
def isVisibleVisitor (s : Bool × Bool) (d : Delta) : Bool × Bool :=
  match d.action with
  | .RECREATE_OBJECT => (false, s.2)
  | .DELETE_OBJECT => (s.1, false)
  | _ => s

/-- `EdgeAccessor::IsVisible` (source lines 24-55): snapshot deleted flag
and chain head, replay, then `exists && (for_deleted_ || !deleted)`. -/
def EdgeAccessor.IsVisible (a : EdgeAccessor) (view : View) : Bool :=
  let s := ApplyDeltasForRead a.txn a.edge.delta view isVisibleVisitor
    (a.edge.deleted, true)
  s.2 && (a.for_deleted || !s.1)

/-- The visitor of `EdgeAccessor::GetProperty` (source lines 232-256), on
the state (exists, deleted, value). -/
def getPropertyVisitor (property : Nat) (s : Bool × Bool × PropertyValue) (d : Delta) :
    Bool × Bool × PropertyValue :=
  match d.action with
  | .SET_PROPERTY k v => if k = property then (s.1, s.2.1, v) else s
  | .DELETE_OBJECT => (false, s.2.1, s.2.2)
  | .RECREATE_OBJECT => (s.1, false, s.2.2)
  | _ => s

/-- The replay state `(exists, deleted, value)` computed by
`EdgeAccessor::GetProperty` before its error mapping. -/
def edgeGetState (a : EdgeAccessor) (property : Nat) (view : View) :
    Bool × Bool × PropertyValue :=
  ApplyDeltasForRead a.txn a.edge.delta view (getPropertyVisitor property)
    (true, a.edge.deleted, getProp a.edge.properties property)

/-- `EdgeAccessor::GetProperty` (source lines 220-260). -/
def EdgeAccessor.GetProperty (a : EdgeAccessor) (property : Nat) (view : View) :
    Except Error PropertyValue :=
  if a.config.properties_on_edges = false then .ok none
  else
    let s := edgeGetState a property view
    if !s.1 then .error .NONEXISTENT_OBJECT
    else if !a.for_deleted && s.2.1 then .error .DELETED_OBJECT
    else .ok s.2.2

/-- The SET_PROPERTY branch of the `EdgeAccessor::Properties` visitor
(source lines 276-289): find the key; present and null prior value →
erase, present and non-null → set, absent and non-null → emplace. -/
def propertiesSetCase (m : PropMap) (k : Nat) (v : PropertyValue) : PropMap :=
  match m.lookup k with
  | some _ =>
    match v with
    | none => eraseProp m k
    | some vv => updateProp m k vv
  | none =>
    match v with
    | some vv => insertSorted k vv m
    | none => m

/-- The visitor of `EdgeAccessor::Properties` (source lines 274-307), on
the state (exists, deleted, properties). -/
def propertiesVisitor (s : Bool × Bool × PropMap) (d : Delta) : Bool × Bool × PropMap :=
  match d.action with
  | .SET_PROPERTY k v => (s.1, s.2.1, propertiesSetCase s.2.2 k v)
  | .DELETE_OBJECT => (false, s.2.1, s.2.2)
  | .RECREATE_OBJECT => (s.1, false, s.2.2)
  | _ => s

/-- The replay state `(exists, deleted, properties)` computed by
`EdgeAccessor::Properties` before its error mapping. -/
def edgePropertiesState (a : EdgeAccessor) (view : View) : Bool × Bool × PropMap :=
  ApplyDeltasForRead a.txn a.edge.delta view propertiesVisitor
    (true, a.edge.deleted, a.edge.properties)

/-- `EdgeAccessor::Properties` (source lines 262-311). -/
def EdgeAccessor.Properties (a : EdgeAccessor) (view : View) :
    Except Error PropMap :=
  if a.config.properties_on_edges = false then .ok []
  else
    let s := edgePropertiesState a view
    if !s.1 then .error .NONEXISTENT_OBJECT
    else if !a.for_deleted && s.2.1 then .error .DELETED_OBJECT
    else .ok s.2.2

/-- The result of a write operation: the returned value or error, plus the
edge and transaction state after the call (unchanged on error). -/
structure WriteRes (α : Type) where
  res : Except Error α
  edge : Edge
  txn : Transaction

/-- The block `edge_accessor.cpp` lines 103-140 (duplicated verbatim at
lines 167-204): compute the version-start timestamp `ts` from the head
delta, re-check write ownership (returning `none` for SERIALIZATION_ERROR),
perform the anchor bookkeeping when the head is committed, and append a
change-notification record.  `AnchorFlag` and `prinfFlag` are the
process-wide toggles, passed explicitly. -/
def writePrologue (a : EdgeAccessor) (anchorFlag prinfFlag : Bool) :
    Option (Nat × Edge × Transaction) :=
  let step : Option (Nat × Edge × Transaction × Bool) :=
    match a.edge.delta with
    | [] => some (a.edge.transaction_st, a.edge, a.txn, true)
    | before_delta :: _ =>
      let ts := before_delta.timestamp
      if kTransactionInitialId ≤ ts then
        if ts = a.txn.transaction_id then
          some (before_delta.transaction_st, a.edge, a.txn, false)
        else none
      else
        let e1 : Edge := { a.edge with num := a.edge.num + 1 }
        if a.config.AnchorNum < e1.num then
          let e2 : Edge := { e1 with num := 1 }
          let t1 : Transaction :=
            if anchorFlag then
              { a.txn with gid_anchor_edge :=
                  archiveInsert a.txn.gid_anchor_edge (a.edge.gid, ts) a.edge.properties }
            else a.txn
          some (ts, e2, t1, true)
        else some (ts, e1, a.txn, true)
  match step with
  | none => none
  | some (ts, e, t, doPrinf) =>
    let t2 : Transaction :=
      if prinfFlag && doPrinf then
        { t with prinfEdge := t.prinfEdge ++
            [{ edge_type := a.edge_type, gid := e.gid, from_gid := e.from_gid,
               to_gid := e.to_gid, ts := ts, properties := e.properties }] }
      else t
    some (ts, e, t2)

/-- `EdgeAccessor::SetProperty` (source lines 94-157).  `CreateAndLinkDelta`
(`mvcc.hpp`, outside the sources at hand) is modelled from the spec: the new
Delta records the pre-write value, its timestamp cell currently reads the
transaction's id, and it is prepended at the chain head; the source then
assigns `from_gid`, `to_gid` and `transaction_st` on it and mutates the
live property map. -/
def EdgeAccessor.SetProperty (a : EdgeAccessor) (property : Nat) (value : PropertyValue)
    (anchorFlag prinfFlag : Bool) : WriteRes PropertyValue :=
  if a.config.properties_on_edges = false then ⟨.error .PROPERTIES_DISABLED, a.edge, a.txn⟩
  else if PrepareForWrite a.txn a.edge = false then
    ⟨.error .SERIALIZATION_ERROR, a.edge, a.txn⟩
  else if a.edge.deleted then ⟨.error .DELETED_OBJECT, a.edge, a.txn⟩
  else
    match writePrologue a anchorFlag prinfFlag with
    | none => ⟨.error .SERIALIZATION_ERROR, a.edge, a.txn⟩
    | some (ts, e, t) =>
      let current_value := getProp e.properties property
      let d : Delta :=
        { action := .SET_PROPERTY property current_value,
          timestamp := a.txn.transaction_id,
          from_gid := e.from_gid, to_gid := e.to_gid, transaction_st := ts }
      ⟨.ok current_value,
       { e with delta := d :: e.delta, properties := setProp e.properties property value },
       t⟩

/-- `EdgeAccessor::ClearProperties` (source lines 159-218): after the same
prologue, one undo Delta per present key (in map order, each prepended by
`CreateAndLinkDelta`), then the live map is cleared and the pre-call map
returned. -/
def EdgeAccessor.ClearProperties (a : EdgeAccessor) (anchorFlag prinfFlag : Bool) :
    WriteRes PropMap :=
  if a.config.properties_on_edges = false then ⟨.error .PROPERTIES_DISABLED, a.edge, a.txn⟩
  else if PrepareForWrite a.txn a.edge = false then
    ⟨.error .SERIALIZATION_ERROR, a.edge, a.txn⟩
  else if a.edge.deleted then ⟨.error .DELETED_OBJECT, a.edge, a.txn⟩
  else
    match writePrologue a anchorFlag prinfFlag with
    | none => ⟨.error .SERIALIZATION_ERROR, a.edge, a.txn⟩
    | some (ts, e, t) =>
      let properties := e.properties
      let e2 : Edge := properties.foldl
        (fun acc kv =>
          { acc with delta :=
              { action := .SET_PROPERTY kv.1 (some kv.2),
                timestamp := a.txn.transaction_id,
                from_gid := e.from_gid, to_gid := e.to_gid,
                transaction_st := ts } :: acc.delta }) e
      ⟨.ok properties, { e2 with properties := [] }, t⟩

/-- Whether a delta is a DELETE_OBJECT record. -/
def isDeleteObject (d : Delta) : Bool :=
  match d.action with
  | .DELETE_OBJECT => true
  | _ => false

/-- Whether a delta is a RECREATE_OBJECT record. -/
def isRecreateObject (d : Delta) : Bool :=
  match d.action with
  | .RECREATE_OBJECT => true
  | _ => false

/-- The SET_PROPERTY undo exactly as the design document words it: the key
is set back to the prior value when that value is non-null (inserted if
absent), and removed when the prior value is null.  Stated independently
of the source's case structure, for comparison with `propertiesSetCase`. -/
def specUndoSet (m : PropMap) (k : Nat) (v : PropertyValue) : PropMap :=
  match v with
  | none => eraseProp m k
  | some vv => if (m.lookup k).isSome then updateProp m k vv else insertSorted k vv m

/-- Replaying a list of undo deltas over a base property map, folding each
SET_PROPERTY undo and ignoring every other delta kind. -/
def specReconstruct (m : PropMap) (ds : List Delta) : PropMap :=
  ds.foldl (fun acc d =>
    match d.action with
    | .SET_PROPERTY k v => specUndoSet acc k v
    | _ => acc) m

/-- The Write Validator's pass condition: no head Delta, or a head owned
by the requesting transaction, or a committed head. -/
def headWriteOk (txn : Transaction) (e : Edge) : Prop :=
  e.delta = [] ∨
    ∃ d rest, e.delta = d :: rest ∧
      (d.timestamp = txn.transaction_id ∨ d.timestamp < kTransactionInitialId)

/-- The version-start timestamp a successful edge write stores into the
new Delta's `transaction_st` field: the edge's own `transaction_st` when
the chain is empty, the head's `transaction_st` when the head is still
uncommitted, and the head's committed timestamp otherwise. -/
def versionTs (a : EdgeAccessor) : Nat :=
  match a.edge.delta with
  | [] => a.edge.transaction_st
  | d :: _ => if kTransactionInitialId ≤ d.timestamp then d.transaction_st else d.timestamp

/-- One write in a committed-write schedule: the writing transaction's id,
the key and value written, and the commit timestamp the transaction later
receives. -/
structure WriteStep where
  txid : Nat
  key : Nat
  value : PropertyValue
  cts : Nat
deriving DecidableEq

/-- A fresh accessor binding `e` to the step's transaction. -/
def stepAccessor (cfg : ConfigItems) (e : Edge) (s : WriteStep) : EdgeAccessor :=
  { edge := e, from_vertex := e.from_gid, to_vertex := e.to_gid, edge_type := 0,
    txn := { transaction_id := s.txid, start_timestamp := s.txid,
             gid_anchor_edge := [], prinfEdge := [] },
    indices := 0, constraints := 0, config := cfg, for_deleted := false }

/-- The commit of transaction `txid` at timestamp `cts`: the shared
timestamp cell swap, seen through every Delta of that transaction. -/
def commitChain (chain : List Delta) (txid cts : Nat) : List Delta :=
  chain.map (fun d => if d.timestamp = txid then { d with timestamp := cts } else d)

/-- One committed write: a fresh transaction performs `SetProperty` and
then commits.  Returns the edge afterwards and how many anchor snapshots
the write captured, or `none` when the write failed. -/
def committedWriteStep (cfg : ConfigItems) (anchorFlag : Bool) (e : Edge) (s : WriteStep) :
    Option (Edge × Nat) :=
  let r := (stepAccessor cfg e s).SetProperty s.key s.value anchorFlag false
  match r.res with
  | .ok _ => some ({ r.edge with delta := commitChain r.edge.delta s.txid s.cts },
                   r.txn.gid_anchor_edge.length)
  | .error _ => none

/-- A schedule of committed writes to one edge, accumulating the total
number of anchor snapshots captured. -/
def runSteps (cfg : ConfigItems) (anchorFlag : Bool) : Edge → List WriteStep → Option (Edge × Nat)
  | e, [] => some (e, 0)
  | e, s :: rest =>
    match committedWriteStep cfg anchorFlag e s with
    | none => none
    | some (e2, c) =>
      match runSteps cfg anchorFlag e2 rest with
      | none => none
      | some (e3, c2) => some (e3, c + c2)

/-! ### Concrete fixtures for witnesses and counterexamples -/

def configOn : ConfigItems := { properties_on_edges := true, AnchorNum := 2 }

def configOff : ConfigItems := { properties_on_edges := false, AnchorNum := 2 }

def exampleTxn : Transaction :=
  { transaction_id := kTransactionInitialId + 1, start_timestamp := 10,
    gid_anchor_edge := [], prinfEdge := [] }

/-- A head delta still uncommitted, owned by a transaction other than
`exampleTxn` (its cell reads a foreign transaction id). -/
def foreignDelta : Delta :=
  { action := .RECREATE_OBJECT, timestamp := kTransactionInitialId + 5, from_gid := 1,
    to_gid := 2, transaction_st := 0 }

/-- A head delta whose cell already reads a commit timestamp. -/
def committedDelta : Delta :=
  { action := .RECREATE_OBJECT, timestamp := 5, from_gid := 1, to_gid := 2,
    transaction_st := 0 }

/-- An uncommitted foreign DELETE_OBJECT delta. -/
def deleteDelta : Delta :=
  { action := .DELETE_OBJECT, timestamp := kTransactionInitialId + 5, from_gid := 1,
    to_gid := 2, transaction_st := 0 }

def exampleEdge : Edge :=
  { gid := 7, from_gid := 1, to_gid := 2, deleted := false,
    properties := [(3, 30)], delta := [], num := 0, transaction_st := 0 }

def accBase : EdgeAccessor :=
  { edge := exampleEdge, from_vertex := 1, to_vertex := 2, edge_type := 0,
    txn := exampleTxn, indices := 0, constraints := 0, config := configOn,
    for_deleted := false }

def accForeign : EdgeAccessor :=
  { accBase with edge := { exampleEdge with delta := [foreignDelta] } }

def accForeignOff : EdgeAccessor := { accForeign with config := configOff }

def accCommitted : EdgeAccessor :=
  { accBase with edge := { exampleEdge with delta := [committedDelta], num := 2 } }

def accDeleted : EdgeAccessor :=
  { accBase with edge := { exampleEdge with delta := [deleteDelta] } }

/-- Three committed writes, for the anchor-cadence witness with
`AnchorNum = 2`. -/
def cadenceSteps : List WriteStep :=
  [{ txid := kTransactionInitialId + 1, key := 3, value := some 1, cts := 6 },
   { txid := kTransactionInitialId + 2, key := 3, value := some 2, cts := 7 },
   { txid := kTransactionInitialId + 3, key := 3, value := some 3, cts := 8 }]

/-! ### Association-list lemmas -/

theorem lookup_cons (k k1 v1 : Nat) (rest : PropMap) :
    List.lookup k ((k1, v1) :: rest) = if k = k1 then some v1 else rest.lookup k := by
  by_cases h : k = k1
  · have hb : (k == k1) = true := by simpa using h
    simp [List.lookup, hb, h]
  · have hb : (k == k1) = false := by simpa using h
    simp [List.lookup, hb, h]

theorem eraseProp_cons (k k1 v1 : Nat) (rest : PropMap) :
    eraseProp ((k1, v1) :: rest) k =
      if k1 = k then eraseProp rest k else (k1, v1) :: eraseProp rest k := by
  by_cases h : k1 = k
  · simp [eraseProp, h]
  · simp [eraseProp, h]

theorem updateProp_cons (k v k1 v1 : Nat) (rest : PropMap) :
    updateProp ((k1, v1) :: rest) k v =
      (if k1 = k then (k, v) else (k1, v1)) :: updateProp rest k v := by
  by_cases h : k1 = k
  · simp [updateProp, h]
  · simp [updateProp, h]

theorem lookup_eraseProp_self (m : PropMap) (k : Nat) : (eraseProp m k).lookup k = none := by
  induction m with
  | nil => rfl
  | cons kv rest ih =>
    rcases kv with ⟨k1, v1⟩
    by_cases h : k1 = k
    · rw [eraseProp_cons, if_pos h]
      exact ih
    · rw [eraseProp_cons, if_neg h, lookup_cons, if_neg (fun hh : k = k1 => h hh.symm)]
      exact ih

theorem lookup_eraseProp_ne (m : PropMap) (k k2 : Nat) (h : k ≠ k2) :
    (eraseProp m k2).lookup k = m.lookup k := by
  induction m with
  | nil => rfl
  | cons kv rest ih =>
    rcases kv with ⟨k1, v1⟩
    by_cases h1 : k1 = k2
    · subst h1
      rw [eraseProp_cons, if_pos rfl, lookup_cons, if_neg h]
      exact ih
    · by_cases h2 : k = k1
      · subst h2
        rw [eraseProp_cons, if_neg h1, lookup_cons, if_pos rfl, lookup_cons, if_pos rfl]
      · rw [eraseProp_cons, if_neg h1, lookup_cons, if_neg h2, lookup_cons, if_neg h2]
        exact ih

theorem eraseProp_eq_of_lookup_none (m : PropMap) (k : Nat) (h : m.lookup k = none) :
    eraseProp m k = m := by
  induction m with
  | nil => rfl
  | cons kv rest ih =>
    rcases kv with ⟨k1, v1⟩
    rw [lookup_cons] at h
    by_cases h1 : k = k1
    · rw [if_pos h1] at h
      exact absurd h (by simp)
    · rw [if_neg h1] at h
      rw [eraseProp_cons, if_neg (fun hh : k1 = k => h1 hh.symm), ih h]

theorem lookup_updateProp_isSome (m : PropMap) (k v : Nat) (h : (m.lookup k).isSome) :
    (updateProp m k v).lookup k = some v := by
  induction m with
  | nil => simp [List.lookup] at h
  | cons kv rest ih =>
    rcases kv with ⟨k1, v1⟩
    by_cases h1 : k = k1
    · subst h1
      rw [updateProp_cons, if_pos rfl, lookup_cons, if_pos rfl]
    · rw [lookup_cons, if_neg h1] at h
      rw [updateProp_cons, if_neg (fun hh : k1 = k => h1 hh.symm), lookup_cons, if_neg h1]
      exact ih h

theorem lookup_updateProp_none (m : PropMap) (k v : Nat) (h : m.lookup k = none) :
    (updateProp m k v).lookup k = none := by
  induction m with
  | nil => rfl
  | cons kv rest ih =>
    rcases kv with ⟨k1, v1⟩
    rw [lookup_cons] at h
    by_cases h1 : k = k1
    · rw [if_pos h1] at h
      exact absurd h (by simp)
    · rw [if_neg h1] at h
      rw [updateProp_cons, if_neg (fun hh : k1 = k => h1 hh.symm), lookup_cons, if_neg h1]
      exact ih h

theorem lookup_updateProp_ne (m : PropMap) (k k2 v : Nat) (h : k ≠ k2) :
    (updateProp m k2 v).lookup k = m.lookup k := by
  induction m with
  | nil => rfl
  | cons kv rest ih =>
    rcases kv with ⟨k1, v1⟩
    by_cases h1 : k1 = k2
    · subst h1
      rw [updateProp_cons, if_pos rfl, lookup_cons, if_neg h, lookup_cons, if_neg h]
      exact ih
    · by_cases h2 : k = k1
      · subst h2
        rw [updateProp_cons, if_neg h1, lookup_cons, if_pos rfl, lookup_cons, if_pos rfl]
      · rw [updateProp_cons, if_neg h1, lookup_cons, if_neg h2, lookup_cons, if_neg h2]
        exact ih

theorem lookup_insertSorted_self (m : PropMap) (k v : Nat) :
    (insertSorted k v m).lookup k = some v := by
  induction m with
  | nil =>
    simp only [insertSorted]
    rw [lookup_cons, if_pos rfl]
  | cons kv rest ih =>
    rcases kv with ⟨k1, v1⟩
    by_cases h1 : k < k1
    · simp only [insertSorted]
      rw [if_pos h1, lookup_cons, if_pos rfl]
    · by_cases h2 : k = k1
      · simp only [insertSorted]
        rw [if_neg h1, if_pos h2, lookup_cons, if_pos rfl]
      · simp only [insertSorted]
        rw [if_neg h1, if_neg h2, lookup_cons, if_neg h2]
        exact ih

theorem lookup_insertSorted_ne (m : PropMap) (k k2 v : Nat) (h : k ≠ k2) :
    (insertSorted k2 v m).lookup k = m.lookup k := by
  induction m with
  | nil =>
    simp only [insertSorted]
    rw [lookup_cons, if_neg h]
  | cons kv rest ih =>
    rcases kv with ⟨k1, v1⟩
    by_cases h1 : k2 < k1
    · simp only [insertSorted]
      rw [if_pos h1, lookup_cons, if_neg h]
    · by_cases h2 : k2 = k1
      · subst h2
        simp only [insertSorted]
        simp [h1, lookup_cons, h]
      · by_cases h3 : k = k1
        · subst h3
          simp only [insertSorted]
          simp [h1, h2, lookup_cons]
        · simp only [insertSorted]
          simp [h1, h2, lookup_cons, h3]
          exact ih

theorem propertiesSetCase_eq_specUndoSet (m : PropMap) (k : Nat) (v : PropertyValue) :
    propertiesSetCase m k v = specUndoSet m k v := by
  cases hl : m.lookup k with
  | some vv =>
    cases v with
    | none => simp [propertiesSetCase, specUndoSet, hl]
    | some v2 => simp [propertiesSetCase, specUndoSet, hl]
  | none =>
    cases v with
    | none => simp [propertiesSetCase, specUndoSet, hl, eraseProp_eq_of_lookup_none m k hl]
    | some v2 => simp [propertiesSetCase, specUndoSet, hl]

theorem lookup_specUndoSet_self (m : PropMap) (k : Nat) (v : PropertyValue) :
    (specUndoSet m k v).lookup k = v := by
  cases v with
  | none => simpa [specUndoSet] using lookup_eraseProp_self m k
  | some vv =>
    cases hl : (m.lookup k).isSome with
    | true => simpa [specUndoSet, hl] using lookup_updateProp_isSome m k vv hl
    | false =>
      have hn : m.lookup k = none := by
        cases h2 : m.lookup k with
        | none => rfl
        | some x => rw [h2] at hl; simp at hl
      simpa [specUndoSet, hl] using lookup_insertSorted_self m k vv

theorem lookup_specUndoSet_ne (m : PropMap) (k k2 : Nat) (v : PropertyValue) (h : k ≠ k2) :
    (specUndoSet m k2 v).lookup k = m.lookup k := by
  cases v with
  | none => simpa [specUndoSet] using lookup_eraseProp_ne m k k2 h
  | some vv =>
    cases hl : (m.lookup k2).isSome with
    | true => simpa [specUndoSet, hl] using lookup_updateProp_ne m k k2 vv h
    | false => simpa [specUndoSet, hl] using lookup_insertSorted_ne m k k2 vv h

/-! ### Fold characterizations of the read visitors -/

theorem foldl_isVisibleVisitor (ds : List Delta) : ∀ (del ex : Bool),
    ds.foldl isVisibleVisitor (del, ex) =
      (del && !(ds.any isRecreateObject), ex && !(ds.any isDeleteObject)) := by
  induction ds with
  | nil => intro del ex; simp
  | cons d rest ih =>
    intro del ex
    cases hd : d.action <;>
      simp [isVisibleVisitor, isRecreateObject, isDeleteObject, hd, ih, Bool.and_assoc]

theorem foldl_propertiesVisitor (ds : List Delta) : ∀ (ex del : Bool) (m : PropMap),
    ds.foldl propertiesVisitor (ex, del, m) =
      (ex && !(ds.any isDeleteObject), del && !(ds.any isRecreateObject),
       specReconstruct m ds) := by
  induction ds with
  | nil => intro ex del m; simp [specReconstruct]
  | cons d rest ih =>
    intro ex del m
    cases hd : d.action <;>
      simp [propertiesVisitor, isRecreateObject, isDeleteObject, hd, ih, specReconstruct,
        propertiesSetCase_eq_specUndoSet, Bool.and_assoc]

theorem foldl_getPropertyVisitor (k : Nat) (ds : List Delta) : ∀ (ex del : Bool) (m : PropMap),
    ds.foldl (getPropertyVisitor k) (ex, del, m.lookup k) =
      (ex && !(ds.any isDeleteObject), del && !(ds.any isRecreateObject),
       (specReconstruct m ds).lookup k) := by
  induction ds with
  | nil => intro ex del m; simp [specReconstruct]
  | cons d rest ih =>
    intro ex del m
    cases hd : d.action with
    | SET_PROPERTY k2 v =>
      by_cases hk : k2 = k
      · subst hk
        have h1 : (specUndoSet m k2 v).lookup k2 = v := lookup_specUndoSet_self m k2 v
        have := ih ex del (specUndoSet m k2 v)
        rw [h1] at this
        simpa [getPropertyVisitor, isRecreateObject, isDeleteObject, hd, specReconstruct]
          using this
      · have h1 : (specUndoSet m k2 v).lookup k = m.lookup k :=
          lookup_specUndoSet_ne m k k2 v (fun hh => hk hh.symm)
        have := ih ex del (specUndoSet m k2 v)
        rw [h1] at this
        simpa [getPropertyVisitor, isRecreateObject, isDeleteObject, hd, hk, specReconstruct]
          using this
    | DELETE_OBJECT =>
      simpa [getPropertyVisitor, isRecreateObject, isDeleteObject, hd, specReconstruct,
        Bool.and_assoc] using ih (ex && false) del m
    | RECREATE_OBJECT =>
      simpa [getPropertyVisitor, isRecreateObject, isDeleteObject, hd, specReconstruct,
        Bool.and_assoc] using ih ex (del && false) m
    | ADD_LABEL l =>
      simpa [getPropertyVisitor, isRecreateObject, isDeleteObject, hd, specReconstruct]
        using ih ex del m
    | REMOVE_LABEL l =>
      simpa [getPropertyVisitor, isRecreateObject, isDeleteObject, hd, specReconstruct]
        using ih ex del m
    | ADD_IN_EDGE g =>
      simpa [getPropertyVisitor, isRecreateObject, isDeleteObject, hd, specReconstruct]
        using ih ex del m
    | ADD_OUT_EDGE g =>
      simpa [getPropertyVisitor, isRecreateObject, isDeleteObject, hd, specReconstruct]
        using ih ex del m
    | REMOVE_IN_EDGE g =>
      simpa [getPropertyVisitor, isRecreateObject, isDeleteObject, hd, specReconstruct]
        using ih ex del m
    | REMOVE_OUT_EDGE g =>
      simpa [getPropertyVisitor, isRecreateObject, isDeleteObject, hd, specReconstruct]
        using ih ex del m

/-! ### Claim theorems -/

/-- C10: `EdgeAccessor::FromVertex` and `EdgeAccessor::ToVertex` construct
the endpoint `VertexAccessor` with the `for_deleted` constructor argument
left at its default `false`, reusing the edge accessor's transaction,
indices, constraints and config; the edge accessor's own include-deleted
mode is never propagated. -/
theorem endpoint_accessors_default_flag (a : EdgeAccessor) :
    a.FromVertex =
      { vertex := a.from_vertex, transaction := a.txn, indices := a.indices,
        constraints := a.constraints, config := a.config, for_deleted := false } ∧
    a.ToVertex =
      { vertex := a.to_vertex, transaction := a.txn, indices := a.indices,
        constraints := a.constraints, config := a.config, for_deleted := false } ∧
    a.FromVertex.for_deleted = false ∧ a.ToVertex.for_deleted = false :=
  ⟨rfl, rfl, rfl, rfl⟩

/-- C9: with `properties_on_edges` off, `EdgeAccessor::GetProperty`
returns a successful null value and `EdgeAccessor::Properties` a
successful empty map, for every edge, key and view, independently of the
object's state and chain. -/
theorem edge_reads_when_properties_disabled (a : EdgeAccessor) (k : Nat) (view : View)
    (hOff : a.config.properties_on_edges = false) :
    a.GetProperty k view = .ok none ∧ a.Properties view = .ok [] := by
  constructor
  · simp [EdgeAccessor.GetProperty, hOff]
  · simp [EdgeAccessor.Properties, hOff]

/-- Witness for C9 at a concrete accessor whose configuration turns edge
properties off. -/
theorem edge_reads_when_properties_disabled_witness :
    accForeignOff.GetProperty 3 .OLD = .ok none ∧ accForeignOff.Properties .OLD = .ok [] :=
  edge_reads_when_properties_disabled accForeignOff 3 .OLD rfl

/-- C8: `EdgeAccessor::IsVisible(view)` is true iff the replay leaves
`exists` true (no DELETE_OBJECT among the applicable deltas) and either
the accessor is in include-deleted mode or the reconstructed deleted flag
is false (which only RECREATE_OBJECT deltas can clear); all other delta
kinds are ignored by the replay. -/
theorem edge_is_visible_characterization (a : EdgeAccessor) (view : View) :
    a.IsVisible view =
      (!((applicableDeltas a.txn view a.edge.delta).any isDeleteObject) &&
       (a.for_deleted ||
        !(a.edge.deleted &&
          !((applicableDeltas a.txn view a.edge.delta).any isRecreateObject)))) := by
  have h := foldl_isVisibleVisitor (applicableDeltas a.txn view a.edge.delta) a.edge.deleted true
  simp [EdgeAccessor.IsVisible, ApplyDeltasForRead, h]

/-- C7: `GetProperty` and `Properties` return NONEXISTENT_OBJECT exactly
when the replay reports the object does not exist, DELETED_OBJECT exactly
when it exists, is reconstructed as deleted, and the accessor is not in
include-deleted mode; non-existence takes precedence, and in
include-deleted mode the reconstructed value is still returned. -/
theorem edge_read_error_mapping (a : EdgeAccessor) (k : Nat) (view : View)
    (hOn : a.config.properties_on_edges = true) :
    ((a.GetProperty k view = .error .NONEXISTENT_OBJECT) ↔
      (edgeGetState a k view).1 = false) ∧
    ((a.GetProperty k view = .error .DELETED_OBJECT) ↔
      ((edgeGetState a k view).1 = true ∧ (edgeGetState a k view).2.1 = true ∧
       a.for_deleted = false)) ∧
    ((edgeGetState a k view).1 = true →
      (a.for_deleted = true ∨ (edgeGetState a k view).2.1 = false) →
      a.GetProperty k view = .ok (edgeGetState a k view).2.2) ∧
    ((a.Properties view = .error .NONEXISTENT_OBJECT) ↔
      (edgePropertiesState a view).1 = false) ∧
    ((a.Properties view = .error .DELETED_OBJECT) ↔
      ((edgePropertiesState a view).1 = true ∧ (edgePropertiesState a view).2.1 = true ∧
       a.for_deleted = false)) ∧
    ((edgePropertiesState a view).1 = true →
      (a.for_deleted = true ∨ (edgePropertiesState a view).2.1 = false) →
      a.Properties view = .ok (edgePropertiesState a view).2.2) := by
  rcases hs : edgeGetState a k view with ⟨ex, del, v⟩
  rcases hp : edgePropertiesState a view with ⟨ex2, del2, m⟩
  cases ex <;> cases del <;> cases hf : a.for_deleted <;> cases ex2 <;> cases del2 <;>
    simp [EdgeAccessor.GetProperty, EdgeAccessor.Properties, hOn, hs, hp, hf]

/-- Witness for C7: a chain headed by an applicable DELETE_OBJECT delta
makes `GetProperty` answer NONEXISTENT_OBJECT. -/
theorem edge_read_error_mapping_witness :
    accDeleted.GetProperty 3 .OLD = .error .NONEXISTENT_OBJECT :=
  (edge_read_error_mapping accDeleted 3 .OLD rfl).1.mpr (by decide)

/-- Counterexample to C6 as stated: with `properties_on_edges` off, the
read operations do NOT return PROPERTIES_DISABLED; they return successful
defaults. -/
theorem properties_disabled_reads_counterexample :
    accForeignOff.config.properties_on_edges = false ∧
    accForeignOff.GetProperty 3 .OLD = .ok none ∧
    accForeignOff.GetProperty 3 .OLD ≠ .error .PROPERTIES_DISABLED ∧
    accForeignOff.Properties .OLD = .ok [] ∧
    accForeignOff.Properties .OLD ≠ .error .PROPERTIES_DISABLED := by
  refine ⟨rfl, rfl, ?_, rfl, ?_⟩
  · intro h
    rw [show accForeignOff.GetProperty 3 .OLD = .ok none from rfl] at h
    cases h
  · intro h
    rw [show accForeignOff.Properties .OLD = .ok [] from rfl] at h
    cases h

/-- C6 (amended): with `properties_on_edges` off, the write operations
`SetProperty` and `ClearProperties` return PROPERTIES_DISABLED before any
object state is touched (edge and transaction unchanged), while the read
operations return successful defaults instead. -/
theorem properties_disabled_write_gating (a : EdgeAccessor) (k : Nat) (v : PropertyValue)
    (af pf : Bool) (hOff : a.config.properties_on_edges = false) :
    a.SetProperty k v af pf = ⟨.error .PROPERTIES_DISABLED, a.edge, a.txn⟩ ∧
    a.ClearProperties af pf = ⟨.error .PROPERTIES_DISABLED, a.edge, a.txn⟩ ∧
    a.GetProperty k .OLD = .ok none ∧ a.GetProperty k .NEW = .ok none ∧
    a.Properties .OLD = .ok [] ∧ a.Properties .NEW = .ok [] := by
  refine ⟨?_, ?_, ?_, ?_, ?_, ?_⟩ <;>
    simp [EdgeAccessor.SetProperty, EdgeAccessor.ClearProperties, EdgeAccessor.GetProperty,
      EdgeAccessor.Properties, hOff]

/-- Witness for the amended C6 at a concrete disabled configuration. -/
theorem properties_disabled_write_gating_witness :
    accForeignOff.SetProperty 3 none false false =
      ⟨.error .PROPERTIES_DISABLED, accForeignOff.edge, accForeignOff.txn⟩ ∧
    accForeignOff.ClearProperties false false =
      ⟨.error .PROPERTIES_DISABLED, accForeignOff.edge, accForeignOff.txn⟩ ∧
    accForeignOff.GetProperty 3 .OLD = .ok none ∧
    accForeignOff.GetProperty 3 .NEW = .ok none ∧
    accForeignOff.Properties .OLD = .ok [] ∧ accForeignOff.Properties .NEW = .ok [] :=
  properties_disabled_write_gating accForeignOff 3 none false false rfl

/-- The write prologue cannot signal a conflict when the head is missing,
owned by the caller, or committed. -/
theorem writePrologue_ne_none (a : EdgeAccessor) (af pf : Bool)
    (h : headWriteOk a.txn a.edge) : writePrologue a af pf ≠ none := by
  unfold writePrologue
  rcases h with hnil | ⟨d, rest, hchain, hd⟩
  · simp [hnil]
  · rw [hchain]
    by_cases hle : kTransactionInitialId ≤ d.timestamp
    · have hown : d.timestamp = a.txn.transaction_id := by
        rcases hd with hown | hcomm
        · exact hown
        · omega
      have hle2 : kTransactionInitialId ≤ a.txn.transaction_id := hown ▸ hle
      simp [hle, hown, hle2]
    · by_cases hA : a.config.AnchorNum < a.edge.num + 1
      · simp [hle, hA]
      · simp [hle, hA]

/-- `PrepareForWrite` passes when the head is missing, owned by the
caller, or committed. -/
theorem prepareForWrite_of_headWriteOk (a : EdgeAccessor)
    (h : headWriteOk a.txn a.edge) : PrepareForWrite a.txn a.edge = true := by
  rcases h with hnil | ⟨d, rest, hchain, hd⟩
  · simp [PrepareForWrite, hnil]
  · by_cases hle : kTransactionInitialId ≤ d.timestamp
    · have hown : d.timestamp = a.txn.transaction_id := by
        rcases hd with hown | hcomm
        · exact hown
        · omega
      simp [PrepareForWrite, hchain, hle, hown]
    · simp [PrepareForWrite, hchain, hle]

/-- Counterexample to C1 as stated: on a configuration with edge
properties off, a write on an edge whose uncommitted head belongs to a
different transaction returns PROPERTIES_DISABLED, not
SERIALIZATION_ERROR. -/
theorem edge_write_conflict_disabled_counterexample :
    accForeignOff.edge.delta = [foreignDelta] ∧
    kTransactionInitialId ≤ foreignDelta.timestamp ∧
    foreignDelta.timestamp ≠ accForeignOff.txn.transaction_id ∧
    (accForeignOff.SetProperty 3 none false false).res = .error .PROPERTIES_DISABLED ∧
    (accForeignOff.SetProperty 3 none false false).res ≠ .error .SERIALIZATION_ERROR ∧
    (accForeignOff.ClearProperties false false).res = .error .PROPERTIES_DISABLED ∧
    (accForeignOff.ClearProperties false false).res ≠ .error .SERIALIZATION_ERROR := by
  refine ⟨rfl, by decide, by decide, rfl, ?_, rfl, ?_⟩
  · intro h
    rw [show (accForeignOff.SetProperty 3 none false false).res =
        .error .PROPERTIES_DISABLED from rfl] at h
    injection h with h2
    cases h2
  · intro h
    rw [show (accForeignOff.ClearProperties false false).res =
        .error .PROPERTIES_DISABLED from rfl] at h
    injection h with h2
    cases h2

/-- C1 (amended: requires edge properties enabled): a write on an edge
whose uncommitted head delta belongs to a different transaction returns
SERIALIZATION_ERROR with edge and transaction state unchanged; when the
head is owned by the caller, committed, or absent, neither write
operation returns SERIALIZATION_ERROR. -/
theorem edge_write_first_writer_wins (a : EdgeAccessor) (k : Nat) (v : PropertyValue)
    (af pf : Bool) (hOn : a.config.properties_on_edges = true) :
    (∀ d rest, a.edge.delta = d :: rest → kTransactionInitialId ≤ d.timestamp →
      d.timestamp ≠ a.txn.transaction_id →
      a.SetProperty k v af pf = ⟨.error .SERIALIZATION_ERROR, a.edge, a.txn⟩ ∧
      a.ClearProperties af pf = ⟨.error .SERIALIZATION_ERROR, a.edge, a.txn⟩) ∧
    (headWriteOk a.txn a.edge →
      (a.SetProperty k v af pf).res ≠ .error .SERIALIZATION_ERROR ∧
      (a.ClearProperties af pf).res ≠ .error .SERIALIZATION_ERROR) := by
  constructor
  · intro d rest hchain hts hne
    have hPW : PrepareForWrite a.txn a.edge = false := by
      simp [PrepareForWrite, hchain, hts, hne]
    constructor
    · simp [EdgeAccessor.SetProperty, hOn, hPW]
    · simp [EdgeAccessor.ClearProperties, hOn, hPW]
  · intro hok
    have hPW := prepareForWrite_of_headWriteOk a hok
    by_cases hdel : a.edge.deleted
    · constructor
      · simp [EdgeAccessor.SetProperty, hOn, hPW, hdel]
      · simp [EdgeAccessor.ClearProperties, hOn, hPW, hdel]
    · obtain ⟨y, hy⟩ := Option.ne_none_iff_exists.mp (writePrologue_ne_none a af pf hok)
      rcases y with ⟨ts, e, t⟩
      constructor
      · simp [EdgeAccessor.SetProperty, hOn, hPW, hdel, ← hy]
      · simp [EdgeAccessor.ClearProperties, hOn, hPW, hdel, ← hy]

/-- Witness for the amended C1: the conflict case at a concrete foreign
uncommitted head, and the permitted case at a committed head. -/
theorem edge_write_first_writer_wins_witness :
    (accForeign.SetProperty 3 none false false =
      ⟨.error .SERIALIZATION_ERROR, accForeign.edge, accForeign.txn⟩ ∧
     accForeign.ClearProperties false false =
      ⟨.error .SERIALIZATION_ERROR, accForeign.edge, accForeign.txn⟩) ∧
    ((accCommitted.SetProperty 3 none false false).res ≠ .error .SERIALIZATION_ERROR ∧
     (accCommitted.ClearProperties false false).res ≠ .error .SERIALIZATION_ERROR) :=
  ⟨(edge_write_first_writer_wins accForeign 3 none false false rfl).1
      foreignDelta [] rfl (by decide) (by decide),
   (edge_write_first_writer_wins accCommitted 3 none false false rfl).2
      (Or.inr ⟨committedDelta, [], rfl, Or.inr (by decide)⟩)⟩

/-- A successful write prologue yields the version-start timestamp
`versionTs` and an edge whose chain, property map, endpoints, deleted flag
and gid are untouched (only the write-count may change). -/
theorem writePrologue_some (a : EdgeAccessor) (af pf : Bool) (ts : Nat) (e : Edge)
    (t : Transaction) (h : writePrologue a af pf = some (ts, e, t)) :
    ts = versionTs a ∧ e.delta = a.edge.delta ∧ e.properties = a.edge.properties ∧
    e.from_gid = a.edge.from_gid ∧ e.to_gid = a.edge.to_gid ∧
    e.deleted = a.edge.deleted ∧ e.gid = a.edge.gid := by
  unfold writePrologue at h
  rcases hchain : a.edge.delta with _ | ⟨d, rest⟩ <;> rw [hchain] at h
  · simp at h
    obtain ⟨h1, h2, h3⟩ := h
    subst h1
    subst h2
    simp [versionTs, hchain]
  · by_cases hle : kTransactionInitialId ≤ d.timestamp
    · by_cases hown : d.timestamp = a.txn.transaction_id
      · have hle2 : kTransactionInitialId ≤ a.txn.transaction_id := hown ▸ hle
        simp [hle, hown, hle2] at h
        obtain ⟨h1, h2, h3⟩ := h
        subst h1
        subst h2
        simp [versionTs, hchain, hle]
      · simp [hle, hown] at h
    · by_cases hA : a.config.AnchorNum < a.edge.num + 1
      · simp [hle, hA] at h
        obtain ⟨h1, h2, h3⟩ := h
        subst h1
        subst h2
        simp [versionTs, hchain, hle]
      · simp [hle, hA] at h
        obtain ⟨h1, h2, h3⟩ := h
        subst h1
        subst h2
        simp [versionTs, hchain, hle]

/-- Folding a per-key prepend of deltas over an edge prepends the reversed
delta list to the chain and changes nothing else. -/
theorem foldl_prepend (f : Nat × Nat → Delta) (props : List (Nat × Nat)) :
    ∀ (e : Edge),
      props.foldl (fun acc kv => { acc with delta := f kv :: acc.delta }) e =
        { e with delta := (props.map f).reverse ++ e.delta } := by
  induction props with
  | nil => intro e; simp
  | cons kv rest ih =>
    intro e
    rw [List.foldl_cons, ih]
    simp

/-- C4: a successful `SetProperty` links one Delta recording the key and
its pre-write value at the chain head, mutates the live map to the new
value, and returns the pre-write value; a successful `ClearProperties`
creates one undo Delta per existing key (with that key's prior value),
empties the live map, and returns the pre-call map. -/
theorem edge_write_undo_delta (a : EdgeAccessor) (k : Nat) (v : PropertyValue) (af pf : Bool)
    (hOn : a.config.properties_on_edges = true) (hdel : a.edge.deleted = false)
    (hok : headWriteOk a.txn a.edge) :
    ((a.SetProperty k v af pf).res = .ok (getProp a.edge.properties k) ∧
     (∃ d2, (a.SetProperty k v af pf).edge.delta = d2 :: a.edge.delta ∧
        d2.action = .SET_PROPERTY k (getProp a.edge.properties k)) ∧
     (a.SetProperty k v af pf).edge.properties = setProp a.edge.properties k v) ∧
    ((a.ClearProperties af pf).res = .ok a.edge.properties ∧
     (a.ClearProperties af pf).edge.properties = [] ∧
     (∃ nds, (a.ClearProperties af pf).edge.delta = nds ++ a.edge.delta ∧
        nds.map Delta.action =
          (a.edge.properties.map (fun kv => Action.SET_PROPERTY kv.1 (some kv.2))).reverse)) := by
  have hPW := prepareForWrite_of_headWriteOk a hok
  obtain ⟨y, hy⟩ := Option.ne_none_iff_exists.mp (writePrologue_ne_none a af pf hok)
  rcases y with ⟨ts, e, t⟩
  obtain ⟨hts, hdelta, hprops, hfrom, hto, hdel2, hgid⟩ := writePrologue_some a af pf ts e t hy.symm
  refine ⟨⟨?_, ?_, ?_⟩, ?_, ?_, ?_⟩
  · simp [EdgeAccessor.SetProperty, hOn, hPW, hdel, ← hy, hprops]
  · refine ⟨{ action := .SET_PROPERTY k (getProp a.edge.properties k),
              timestamp := a.txn.transaction_id, from_gid := a.edge.from_gid,
              to_gid := a.edge.to_gid, transaction_st := ts }, ?_, rfl⟩
    simp [EdgeAccessor.SetProperty, hOn, hPW, hdel, ← hy, hprops, hdelta, hfrom, hto]
  · simp [EdgeAccessor.SetProperty, hOn, hPW, hdel, ← hy, hprops]
  · simp [EdgeAccessor.ClearProperties, hOn, hPW, hdel, ← hy, hprops]
  · simp [EdgeAccessor.ClearProperties, hOn, hPW, hdel, ← hy]
  · refine ⟨(a.edge.properties.map (fun kv =>
      { action := .SET_PROPERTY kv.1 (some kv.2), timestamp := a.txn.transaction_id,
        from_gid := a.edge.from_gid, to_gid := a.edge.to_gid,
        transaction_st := ts : Delta })).reverse, ?_, ?_⟩
    · simp [EdgeAccessor.ClearProperties, hOn, hPW, hdel, ← hy, foldl_prepend, hprops,
        hdelta, hfrom, hto]
    · simp [List.map_reverse, List.map_map, Function.comp]

/-- Counterexample to C5 as stated: a write by a transaction whose start
timestamp is 10 on an edge whose head delta committed at timestamp 5
stores `transaction_st = 5` (the committed timestamp of the previous
version), not the writing transaction's start timestamp 10. -/
theorem edge_delta_transaction_st_counterexample :
    ((accCommitted.SetProperty 3 (some 1) false false).edge.delta.head?.map
        (fun d2 => d2.transaction_st)) = some 5 ∧
    accCommitted.txn.start_timestamp = 10 ∧ (5 : Nat) ≠ 10 :=
  ⟨rfl, rfl, by decide⟩

/-- C5 (amended): every Delta created by a successful edge write carries
the edge's two endpoint gids, and in `transaction_st` the version-start
timestamp `versionTs` — the head delta's committed timestamp (or the
head's own `transaction_st` when the head is the caller's, or the edge's
`transaction_st` when the chain is empty) — not the writing transaction's
start timestamp. -/
theorem edge_delta_endpoints_and_version_ts (a : EdgeAccessor) (k : Nat) (v : PropertyValue)
    (af pf : Bool) (hOn : a.config.properties_on_edges = true)
    (hdel : a.edge.deleted = false) (hok : headWriteOk a.txn a.edge) :
    (∃ d2, (a.SetProperty k v af pf).edge.delta = d2 :: a.edge.delta ∧
       d2.from_gid = a.edge.from_gid ∧ d2.to_gid = a.edge.to_gid ∧
       d2.transaction_st = versionTs a) ∧
    (∃ nds, (a.ClearProperties af pf).edge.delta = nds ++ a.edge.delta ∧
       ∀ d2 ∈ nds, d2.from_gid = a.edge.from_gid ∧ d2.to_gid = a.edge.to_gid ∧
         d2.transaction_st = versionTs a) := by
  have hPW := prepareForWrite_of_headWriteOk a hok
  obtain ⟨y, hy⟩ := Option.ne_none_iff_exists.mp (writePrologue_ne_none a af pf hok)
  rcases y with ⟨ts, e, t⟩
  obtain ⟨hts, hdelta, hprops, hfrom, hto, hdel2, hgid⟩ := writePrologue_some a af pf ts e t hy.symm
  constructor
  · refine ⟨{ action := .SET_PROPERTY k (getProp a.edge.properties k),
              timestamp := a.txn.transaction_id, from_gid := a.edge.from_gid,
              to_gid := a.edge.to_gid, transaction_st := versionTs a }, ?_, rfl, rfl, rfl⟩
    simp [EdgeAccessor.SetProperty, hOn, hPW, hdel, ← hy, hprops, hdelta, hfrom, hto, ← hts]
  · refine ⟨(a.edge.properties.map (fun kv =>
      { action := .SET_PROPERTY kv.1 (some kv.2), timestamp := a.txn.transaction_id,
        from_gid := a.edge.from_gid, to_gid := a.edge.to_gid,
        transaction_st := versionTs a : Delta })).reverse, ?_, ?_⟩
    · simp [EdgeAccessor.ClearProperties, hOn, hPW, hdel, ← hy, foldl_prepend, hprops,
        hdelta, hfrom, hto, ← hts]
    · intro d2 hd2
      simp [List.mem_reverse, List.mem_map] at hd2
      obtain ⟨kv, hkv2, hmem, hEq⟩ := hd2
      subst hEq
      exact ⟨rfl, rfl, rfl⟩

/-- Witness for the amended C5 at a committed head: the created delta
carries the endpoints and the previous commit timestamp 5. -/
theorem edge_delta_endpoints_and_version_ts_witness :
    ∃ d2, (accCommitted.SetProperty 3 none false false).edge.delta =
        d2 :: accCommitted.edge.delta ∧
      d2.from_gid = accCommitted.edge.from_gid ∧ d2.to_gid = accCommitted.edge.to_gid ∧
      d2.transaction_st = versionTs accCommitted :=
  (edge_delta_endpoints_and_version_ts accCommitted 3 none false false rfl rfl
      (Or.inr ⟨committedDelta, [], rfl, Or.inr (by decide)⟩)).1

/-- Witness for C4: the concrete undo delta, return value and map
mutation at a committed head. -/
theorem edge_write_undo_delta_witness :
    ((accCommitted.SetProperty 3 (some 1) false false).res =
        .ok (getProp accCommitted.edge.properties 3) ∧
     (∃ d2, (accCommitted.SetProperty 3 (some 1) false false).edge.delta =
        d2 :: accCommitted.edge.delta ∧
        d2.action = .SET_PROPERTY 3 (getProp accCommitted.edge.properties 3)) ∧
     (accCommitted.SetProperty 3 (some 1) false false).edge.properties =
        setProp accCommitted.edge.properties 3 (some 1)) ∧
    ((accCommitted.ClearProperties false false).res = .ok accCommitted.edge.properties ∧
     (accCommitted.ClearProperties false false).edge.properties = [] ∧
     (∃ nds, (accCommitted.ClearProperties false false).edge.delta =
        nds ++ accCommitted.edge.delta ∧
        nds.map Delta.action =
          (accCommitted.edge.properties.map
            (fun kv => Action.SET_PROPERTY kv.1 (some kv.2))).reverse)) :=
  edge_write_undo_delta accCommitted 3 (some 1) false false rfl rfl
    (Or.inr ⟨committedDelta, [], rfl, Or.inr (by decide)⟩)

/-- C3: `Properties(view)` reconstructs the visible map by folding each
applicable SET_PROPERTY delta as an undo exactly as the spec words it
(`specUndoSet`): prior value set back, key inserted when absent and the
prior value non-null, key removed when the prior value is null;
DELETE_OBJECT forces NONEXISTENT_OBJECT, RECREATE_OBJECT clears the
deleted flag; `GetProperty(key, view)` agrees with `Properties(view)`
pointwise at `key`. -/
theorem edge_read_reconstruction (a : EdgeAccessor) (view : View)
    (hOn : a.config.properties_on_edges = true) :
    (a.Properties view =
      (if (applicableDeltas a.txn view a.edge.delta).any isDeleteObject then
        .error .NONEXISTENT_OBJECT
       else if !a.for_deleted &&
          (a.edge.deleted &&
           !((applicableDeltas a.txn view a.edge.delta).any isRecreateObject)) then
        .error .DELETED_OBJECT
       else
        .ok (specReconstruct a.edge.properties
              (applicableDeltas a.txn view a.edge.delta)))) ∧
    ∀ k, a.GetProperty k view = (a.Properties view).map (fun m => m.lookup k) := by
  have hP := foldl_propertiesVisitor (applicableDeltas a.txn view a.edge.delta) true
    a.edge.deleted a.edge.properties
  constructor
  · simp only [EdgeAccessor.Properties, edgePropertiesState, ApplyDeltasForRead, hP, hOn]
    cases hD : (applicableDeltas a.txn view a.edge.delta).any isDeleteObject <;>
      cases hR : (applicableDeltas a.txn view a.edge.delta).any isRecreateObject <;>
      cases hdel : a.edge.deleted <;> cases hf : a.for_deleted <;>
      simp [hD, hR, hdel, hf]
  · intro k
    have hG := foldl_getPropertyVisitor k (applicableDeltas a.txn view a.edge.delta) true
      a.edge.deleted a.edge.properties
    simp only [EdgeAccessor.GetProperty, EdgeAccessor.Properties, edgeGetState,
      edgePropertiesState, ApplyDeltasForRead, getProp, hG, hP, hOn]
    cases hD : (applicableDeltas a.txn view a.edge.delta).any isDeleteObject <;>
      cases hR : (applicableDeltas a.txn view a.edge.delta).any isRecreateObject <;>
      cases hdel : a.edge.deleted <;> cases hf : a.for_deleted <;>
      simp [hD, hR, hdel, hf, Except.map]

/-- Witness for C3: pointwise agreement and the concrete reconstructed
value at an uncommitted foreign head under the OLD view. -/
theorem edge_read_reconstruction_witness :
    accForeign.GetProperty 3 .OLD = (accForeign.Properties .OLD).map (fun m => m.lookup 3) ∧
    accForeign.GetProperty 3 .OLD = .ok (some 30) :=
  ⟨(edge_read_reconstruction accForeign .OLD rfl).2 3, rfl⟩

/-- One committed write on a committed head succeeds, increments the
write-count (resetting past the threshold, with exactly one snapshot
captured when it resets), and leaves the edge not deleted with a
committed head. -/
theorem committedWriteStep_spec (cfg : ConfigItems) (e : Edge) (s : WriteStep)
    (hOn : cfg.properties_on_edges = true) (hdel : e.deleted = false)
    (d : Delta) (rest : List Delta) (hchain : e.delta = d :: rest)
    (hts : d.timestamp < kTransactionInitialId) :
    ∃ e2, committedWriteStep cfg true e s =
        some (e2, if cfg.AnchorNum < e.num + 1 then 1 else 0) ∧
      e2.num = (if cfg.AnchorNum < e.num + 1 then 1 else e.num + 1) ∧
      e2.deleted = false ∧
      ∃ d2 r2, e2.delta = d2 :: r2 ∧ d2.timestamp = s.cts := by
  have hle : ¬ kTransactionInitialId ≤ d.timestamp := not_le.mpr hts
  refine ⟨{ e with
            num := if cfg.AnchorNum < e.num + 1 then 1 else e.num + 1,
            properties := setProp e.properties s.key s.value,
            delta := commitChain
              ({ action := .SET_PROPERTY s.key (getProp e.properties s.key),
                 timestamp := s.txid, from_gid := e.from_gid, to_gid := e.to_gid,
                 transaction_st := d.timestamp } :: e.delta) s.txid s.cts },
         ?_, ?_, ?_, ?_⟩
  · by_cases hA : cfg.AnchorNum < e.num + 1 <;>
      simp [committedWriteStep, stepAccessor, EdgeAccessor.SetProperty, PrepareForWrite,
        writePrologue, hchain, hle, hdel, hA, hOn, archiveInsert]
  · rfl
  · exact hdel
  · exact ⟨{ action := .SET_PROPERTY s.key (getProp e.properties s.key),
             timestamp := s.cts, from_gid := e.from_gid, to_gid := e.to_gid,
             transaction_st := d.timestamp },
           commitChain e.delta s.txid s.cts, by simp [commitChain], rfl⟩

/-- Anchor cadence, generalized over the starting write-count: a schedule
of committed writes that takes the count from `e.num ≤ AnchorNum` exactly
to the threshold plus one captures exactly one snapshot and leaves the
count at 1. -/
theorem runSteps_cadence (cfg : ConfigItems) (hOn : cfg.properties_on_edges = true) :
    ∀ (steps : List WriteStep) (e : Edge),
      e.deleted = false →
      (∃ d r, e.delta = d :: r ∧ d.timestamp < kTransactionInitialId) →
      (∀ s ∈ steps, s.cts < kTransactionInitialId) →
      e.num ≤ cfg.AnchorNum →
      e.num + steps.length = cfg.AnchorNum + 1 →
      ∃ eF, runSteps cfg true e steps = some (eF, 1) ∧ eF.num = 1 := by
  intro steps
  induction steps with
  | nil =>
    intro e hdel hhead hv hle hlen
    simp at hlen
    omega
  | cons s rest ih =>
    intro e hdel hhead hv hle hlen
    obtain ⟨d, r, hchain, hts⟩ := hhead
    obtain ⟨e2, hstep, hnum2, hdel2, d2, r2, hchain2, hts2⟩ :=
      committedWriteStep_spec cfg e s hOn hdel d r hchain hts
    have hcts : s.cts < kTransactionInitialId := hv s (by simp)
    by_cases hA : cfg.AnchorNum < e.num + 1
    · have hrest : rest = [] := by
        rcases rest with _ | ⟨s2, r3⟩
        · rfl
        · simp at hlen
          omega
      subst hrest
      refine ⟨e2, ?_, ?_⟩
      · simp [runSteps, hstep, hA]
      · rw [hnum2, if_pos hA]
    · have hnum3 : e2.num = e.num + 1 := by rw [hnum2, if_neg hA]
      obtain ⟨eF, hrun, hnumF⟩ := ih e2 hdel2 ⟨d2, r2, hchain2, hts2 ▸ hcts⟩
        (fun s2 hs2 => hv s2 (by simp [hs2])) (by omega) (by simp at hlen; omega)
      refine ⟨eF, ?_, hnumF⟩
      simp [runSteps, hstep, hA, hrun]

/-- C2: a successful edge write on a committed head increments the
write-count; past the threshold `AnchorNum` the count resets to 1 and,
when anchoring is enabled, the pre-write property map is archived under
(edge gid, the committed timestamp read from the head delta);
consequently, with `AnchorNum = N`, a schedule of exactly N+1 committed
writes starting at count 0 captures exactly one snapshot and leaves the
count at 1. -/
theorem edge_write_anchor_bookkeeping :
    (∀ (a : EdgeAccessor) (k : Nat) (v : PropertyValue) (af pf : Bool) (d : Delta)
        (rest : List Delta),
      a.config.properties_on_edges = true → a.edge.deleted = false →
      a.edge.delta = d :: rest → d.timestamp < kTransactionInitialId →
      ((a.SetProperty k v af pf).edge.num =
          (if a.config.AnchorNum < a.edge.num + 1 then 1 else a.edge.num + 1)) ∧
      ((a.SetProperty k v af pf).txn.gid_anchor_edge =
          (if a.config.AnchorNum < a.edge.num + 1 then
            (if af then
              archiveInsert a.txn.gid_anchor_edge (a.edge.gid, d.timestamp)
                a.edge.properties
             else a.txn.gid_anchor_edge)
           else a.txn.gid_anchor_edge)) ∧
      ((a.ClearProperties af pf).edge.num =
          (if a.config.AnchorNum < a.edge.num + 1 then 1 else a.edge.num + 1)) ∧
      ((a.ClearProperties af pf).txn.gid_anchor_edge =
          (if a.config.AnchorNum < a.edge.num + 1 then
            (if af then
              archiveInsert a.txn.gid_anchor_edge (a.edge.gid, d.timestamp)
                a.edge.properties
             else a.txn.gid_anchor_edge)
           else a.txn.gid_anchor_edge))) ∧
    (∀ (cfg : ConfigItems) (steps : List WriteStep) (e : Edge) (d : Delta)
        (rest : List Delta),
      cfg.properties_on_edges = true →
      (∀ s ∈ steps, s.cts < kTransactionInitialId) →
      steps.length = cfg.AnchorNum + 1 →
      e.num = 0 → e.deleted = false →
      e.delta = d :: rest → d.timestamp < kTransactionInitialId →
      ∃ eF, runSteps cfg true e steps = some (eF, 1) ∧ eF.num = 1) := by
  constructor
  · intro a k v af pf d rest hOn hdel hchain hts
    have hle : ¬ kTransactionInitialId ≤ d.timestamp := not_le.mpr hts
    have hPW : PrepareForWrite a.txn a.edge = true := by
      simp [PrepareForWrite, hchain, hle]
    by_cases hA : a.config.AnchorNum < a.edge.num + 1 <;> cases af <;> cases pf <;>
      refine ⟨?_, ?_, ?_, ?_⟩ <;>
        simp [EdgeAccessor.SetProperty, EdgeAccessor.ClearProperties, writePrologue,
          hOn, hPW, hdel, hchain, hle, hA, foldl_prepend]
  · intro cfg steps e d rest hOn hv hlen hnum hdel hchain hts
    exact runSteps_cadence cfg hOn steps e hdel ⟨d, rest, hchain, hts⟩ hv (by omega)
      (by omega)

/-- Witness for C2: at `AnchorNum = 2`, a write on a count-2 edge resets
the count and archives the snapshot under (gid 7, commit timestamp 5), and
the three-step committed schedule captures exactly one snapshot. -/
theorem edge_write_anchor_bookkeeping_witness :
    ((accCommitted.SetProperty 3 (some 1) true false).edge.num = 1 ∧
     (accCommitted.SetProperty 3 (some 1) true false).txn.gid_anchor_edge =
        [((7, 5), [(3, 30)])]) ∧
    (∃ eF, runSteps configOn true { exampleEdge with delta := [committedDelta] }
        cadenceSteps = some (eF, 1) ∧ eF.num = 1) := by
  have h := edge_write_anchor_bookkeeping.1 accCommitted 3 (some 1) true false
    committedDelta [] rfl rfl rfl (by decide)
  refine ⟨⟨?_, ?_⟩, ?_⟩
  · rw [h.1]
    rfl
  · rw [h.2.1]
    rfl
  · exact edge_write_anchor_bookkeeping.2 configOn cadenceSteps
      { exampleEdge with delta := [committedDelta] } committedDelta [] rfl (by decide)
      rfl rfl rfl rfl (by decide)

end AeonG
